import Mathlib

/-!
Shallow embedding of the IDX small-cap screener dashboard client
(`src/client/src`): the probability-threshold clamping and date defaulting of
`applyFilters` (`app/page.tsx` and the revised page in the same bundle), the
client-side row predicates and the date sort, the CSV serializer
(`lib/saveCsv.ts`), the generic table renderer's search filter and sort
comparator (`components/DataTable.tsx`), and the data client's error paths
(`lib/api.ts`).  JavaScript machine numbers are modelled as rationals with an
explicit `Option` for NaN, strings as Lean strings over their code points,
and records as association lists.
-/

namespace IdxScreener

/-- Model of a JavaScript runtime value held in a `Record<string, unknown>`
cell: `null`, `undefined`, a string, or a finite number modelled as a
rational. -/
inductive JsVal where
  | vNull
  | vUndef
  | vStr (s : String)
  | vNum (q : ℚ)
deriving DecidableEq

/-- Model of JavaScript `String(v)` on the value model.  Integral numbers
render as their decimal form; a non-integral rational is rendered as
numerator/denominator, standing in for the IEEE decimal rendering that is
outside this embedding (no claim exercises that corner). -/
def jsToString : JsVal → String
  | .vNull => "null"
  | .vUndef => "undefined"
  | .vStr s => s
  | .vNum q =>
    if q.den = 1 then toString q.num else toString q.num ++ "/" ++ toString q.den

/-- The JavaScript whitespace class `\s` (its ASCII part), used by the
`trim()` model and by the edge-whitespace regex of `escapeCell`. -/
def jsWs (c : Char) : Bool :=
  c = ' ' || c = '\t' || c = '\n' || c = '\r' || c = '\x0b' || c = '\x0c'

/-- JavaScript `String.prototype.trim()`: drop leading and trailing
whitespace. -/
def jsTrim (s : String) : String :=
  ⟨(((s.data.dropWhile jsWs).reverse.dropWhile jsWs).reverse : List Char)⟩

/-- JavaScript `a || b` on strings: the empty string is the only falsy
string. -/
def jsOr (a b : String) : String := if a = "" then b else a

/-- ASCII-faithful model of `String.prototype.toUpperCase()`. -/
def upperStr (s : String) : String := ⟨s.data.map Char.toUpper⟩

/-- ASCII-faithful model of `String.prototype.toLowerCase()`. -/
def lowerStr (s : String) : String := ⟨s.data.map Char.toLower⟩

/-- From `applyFilters` in the revised dashboard page (detail bundle,
lines 181–182): the threshold actually sent with the signals request,
`Number.isFinite(threshold) && threshold > 0 ? Math.min(threshold, 1) : 0.35`.
`none` models a non-finite number (NaN or an infinity). -/
def sentThreshold : Option ℚ → ℚ
  | some q => if 0 < q then min q 1 else 0.35
  | none => 0.35

/-- From `boot` in the revised dashboard page (lines 143–145): the clamp of
the backend-provided default,
`Number.isFinite(td) && td > 0 && td <= 1 ? td : 0.35`. -/
def bootThreshold : Option ℚ → ℚ
  | some q => if 0 < q ∧ q ≤ 1 then q else 0.35
  | none => 0.35

/-- From `applyFilters` (`app/page.tsx` lines 67–72, identical in the revised
page): `from = (dateFrom || dateTo || "").trim()`,
`to = (dateTo || dateFrom || "").trim()`; when either is empty, rows are set
to `[]` and no backend request is issued (`none`); otherwise the request is
issued with the resolved pair (`some`). -/
def applyDates (dateFrom dateTo : String) : Option (String × String) :=
  let fromD := jsTrim (jsOr dateFrom (jsOr dateTo ""))
  let toD := jsTrim (jsOr dateTo (jsOr dateFrom ""))
  if fromD = "" ∨ toD = "" then none else some (fromD, toD)

/-- `SignalRow` from `components/SignalsTable.tsx`, restricted to the fields
the client-side predicates read; `top_buyer` is optional/nullable. -/
structure SignalRow where
  tanggal : String
  saham : String
  sinyal : String
  harga : ℚ
  top_buyer : Option String
deriving DecidableEq

/-- Broker predicate of `applyFilters`: when `broker` is not the sentinel
`"Semua Broker"`, keep rows with `(r.top_buyer ?? "") === broker`. -/
def brokerFilter (broker : String) (rows : List SignalRow) : List SignalRow :=
  if broker ≠ "Semua Broker" then
    rows.filter (fun r => decide (r.top_buyer.getD "" = broker))
  else rows

/-- Exact-symbol predicate of `applyFilters`: when `symbolExact.trim()` is
truthy, keep rows whose upper-cased `saham` equals the upper-cased trimmed
criterion. -/
def symbolFilter (symbolExact : String) (rows : List SignalRow) : List SignalRow :=
  if jsTrim symbolExact ≠ "" then
    rows.filter (fun r => decide (upperStr r.saham = upperStr (jsTrim symbolExact)))
  else rows

/-- Ascending date comparator of `applyFilters`:
`a.tanggal.localeCompare(b.tanggal) <= 0`; `localeCompare` on fixed-width
ISO dates is modelled by the lexicographic string order. -/
def leAsc (a b : SignalRow) : Bool := decide (a.tanggal ≤ b.tanggal)

/-- Descending date comparator of `applyFilters`:
`b.tanggal.localeCompare(a.tanggal) <= 0`. -/
def leDesc (a b : SignalRow) : Bool := decide (b.tanggal ≤ a.tanggal)

/-- Date sort of `applyFilters`: a stable sort by the ascending or
descending date comparator per `sortDate`; the stable JavaScript
`Array.prototype.sort` is modelled by `List.mergeSort`. -/
def sortRows (sortDate : String) (rows : List SignalRow) : List SignalRow :=
  if sortDate = "asc" then rows.mergeSort leAsc else rows.mergeSort leDesc

/-- The strict date order on signal rows (used to state uniqueness of the
sorted sequence when dates are pairwise distinct). -/
def dateLt (a b : SignalRow) : Prop := a.tanggal < b.tanggal

instance : IsAntisymm SignalRow dateLt := ⟨fun _ _ h1 h2 => (lt_asymm h1 h2).elim⟩

/-- Lookup in a record modelled as an association list; a missing key is
JavaScript `undefined`. -/
def getVal : List (String × JsVal) → String → JsVal
  | [], _ => .vUndef
  | (k, v) :: r, c => if k = c then v else getVal r c

/-- `Object.keys` of a record: its keys in insertion order. -/
def keysOf (r : List (String × JsVal)) : List String := r.map Prod.fst

/-- Leading-character whitespace test, one half of the `^\s|\s$` regex of
`escapeCell`. -/
def headWs : List Char → Bool
  | [] => false
  | c :: _ => jsWs c

/-- The wrap test of `escapeCell` in `lib/saveCsv.ts`:
`/[",\n]/.test(s) || /^\s|\s$/.test(s)`. -/
def needsQuote (s : String) : Bool :=
  s.data.any (fun c => c = '"' || c = ',' || c = '\n')
    || (headWs s.data || headWs s.data.reverse)

/-- `s.replace` of every double quote by a doubled double quote, on the
character list. -/
def dupQuotes : List Char → List Char
  | [] => []
  | c :: cs => if c = '"' then '"' :: '"' :: dupQuotes cs else c :: dupQuotes cs

/-- `escapeCell` from `lib/saveCsv.ts`: `null`/`undefined` serialize to the
empty cell; otherwise the string form has its double quotes doubled and is
wrapped in double quotes exactly when the wrap test fires. -/
def escapeCell (v : JsVal) : String :=
  match v with
  | .vNull => ""
  | .vUndef => ""
  | w =>
    let s := jsToString w
    let escaped : String := ⟨dupQuotes s.data⟩
    if needsQuote s then "\"" ++ escaped ++ "\"" else escaped

/-- The string a serialized cell stands for: the empty cell for
`null`/`undefined`, the JavaScript string form otherwise. -/
def cellStr (v : JsVal) : String :=
  match v with
  | .vNull => ""
  | .vUndef => ""
  | w => jsToString w

/-- JavaScript `Array.prototype.join(sep)`. -/
def joinSep (sep : String) : List String → String
  | [] => ""
  | [a] => a
  | a :: b :: l => a ++ sep ++ joinSep sep (b :: l)

/-- Column list chosen by `toCSV` in `lib/saveCsv.ts`:
`cols && cols.length > 0 ? cols : rows.length > 0 ? Object.keys(rows[0]) : []`. -/
def columnsOf (rows : List (List (String × JsVal))) (cols : List String) :
    List String :=
  if cols ≠ [] then cols
  else
    match rows with
    | [] => []
    | r :: _ => keysOf r

/-- `toCSV` from `lib/saveCsv.ts`: the comma-joined (unescaped) header line
followed by one comma-joined line of escaped cells per record, all joined by
newlines. -/
def toCSV (rows : List (List (String × JsVal))) (cols : List String) : String :=
  let columns := columnsOf rows cols
  let header := joinSep "," columns
  let lines := rows.map
    (fun r => joinSep "," (columns.map (fun c => escapeCell (getVal r c))))
  joinSep "\n" (header :: lines)

/-- True when a character list starts with a double quote (lookahead used by
the CSV re-splitter). -/
def headQuote : List Char → Bool
  | '"' :: _ => true
  | _ => false

/-- Spec-side CSV re-splitter: split the text on unescaped commas and
newlines, honouring double-quote escaping (inside a quoted cell a doubled
double quote is a literal quote, a single one closes the cell).  State:
remaining input, inside-quotes flag, current cell, current line, finished
lines. -/
def splitCSVAux : List Char → Bool → List Char → List String → List (List String) → List (List String)
  | [], _, cell, line, acc => acc ++ [line ++ [⟨cell⟩]]
  | '"' :: '"' :: rest, true, cell, line, acc =>
    splitCSVAux rest true (cell ++ ['"']) line acc
  | '"' :: rest, true, cell, line, acc => splitCSVAux rest false cell line acc
  | c :: rest, true, cell, line, acc => splitCSVAux rest true (cell ++ [c]) line acc
  | '"' :: rest, false, cell, line, acc => splitCSVAux rest true cell line acc
  | ',' :: rest, false, cell, line, acc =>
    splitCSVAux rest false [] (line ++ [⟨cell⟩]) acc
  | '\n' :: rest, false, cell, line, acc =>
    splitCSVAux rest false [] [] (acc ++ [line ++ [⟨cell⟩]])
  | c :: rest, false, cell, line, acc => splitCSVAux rest false (cell ++ [c]) line acc

/-- Re-split a CSV text on unescaped commas and newlines: the recovered
lines, each a list of cell strings. -/
def splitCSV (s : String) : List (List String) :=
  splitCSVAux s.data false [] [] []

/-- `value ?? ""` as used on searched cells: `null`/`undefined` coalesce to
the empty string. -/
def coalesceEmpty (v : JsVal) : JsVal :=
  match v with
  | .vNull => .vStr ""
  | .vUndef => .vStr ""
  | w => w

/-- Does `hay` start with `needle`? -/
def beginsWith : List Char → List Char → Bool
  | [], _ => true
  | _ :: _, [] => false
  | a :: as, b :: bs => a = b && beginsWith as bs

/-- Substring test for JavaScript `String.prototype.includes`. -/
def hasSub (needle : List Char) : List Char → Bool
  | [] => needle.isEmpty
  | c :: rest => beginsWith needle (c :: rest) || hasSub needle rest

/-- JavaScript `hay.includes(needle)`. -/
def jsIncludes (hay needle : String) : Bool := hasSub needle.data hay.data

/-- The column list the table renderer derives: keys of the first row, empty
for no rows. -/
def colsOf (rows : List (List (String × JsVal))) : List String :=
  match rows with
  | [] => []
  | r :: _ => keysOf r

/-- The per-row search predicate of `filtered` in
`components/DataTable.tsx`: some column's string form, lower-cased, contains
the (already lower-cased) query. -/
def rowMatches (cols : List String) (q : String) (r : List (String × JsVal)) :
    Bool :=
  cols.any (fun c => jsIncludes (lowerStr (jsToString (coalesceEmpty (getVal r c)))) q)

/-- `filtered` from `components/DataTable.tsx` (revised form): empty input
gives an empty list, a blank query keeps all rows, otherwise rows are kept
when some column value's lower-cased string form contains the lower-cased
query. -/
def searchRows (rows : List (List (String × JsVal))) (query : String) :
    List (List (String × JsVal)) :=
  if rows = [] then []
  else if jsTrim query = "" then rows
  else rows.filter (rowMatches (colsOf rows) (lowerStr query))

/-- Digit-string value, used by the decimal model of JavaScript `Number()`. -/
def natOfDigits (cs : List Char) : Nat :=
  cs.foldl (fun n c => 10 * n + (c.toNat - '0'.toNat)) 0

/-- Unsigned decimal literal (`123`, `1.5`, `.5`, `7.`) as a rational;
`none` when the shape is not such a literal. -/
def jsParseDec (cs : List Char) : Option ℚ :=
  let intPart := cs.takeWhile Char.isDigit
  let rest := cs.dropWhile Char.isDigit
  match rest with
  | [] => if intPart = [] then none else some (natOfDigits intPart : ℚ)
  | '.' :: frac =>
    if frac.all Char.isDigit ∧ (intPart ≠ [] ∨ frac ≠ []) then
      some ((natOfDigits intPart : ℚ) + (natOfDigits frac : ℚ) / (10 : ℚ) ^ frac.length)
    else none
  | _ => none

/-- JavaScript `Number()` on a string (decimal fragment of its grammar):
whitespace is trimmed, the blank string converts to `0`, an optionally
signed decimal literal to its value, anything else to NaN (`none`). -/
def jsStrToNumber (s : String) : Option ℚ :=
  let t := jsTrim s
  if t = "" then some 0
  else
    match t.data with
    | '-' :: cs => (jsParseDec cs).map (fun q => -q)
    | '+' :: cs => jsParseDec cs
    | cs => jsParseDec cs

/-- JavaScript `Number()` on the value model (`none` is NaN):
`Number(null) = 0`, `Number(undefined) = NaN`, numbers are themselves,
strings go through the decimal parse. -/
def jsToNumber : JsVal → Option ℚ
  | .vNull => some 0
  | .vUndef => none
  | .vNum q => some q
  | .vStr s => jsStrToNumber s

/-- Sign of an ordering as the number a JavaScript comparator returns. -/
def ordSign : Ordering → ℚ
  | .lt => -1
  | .eq => 0
  | .gt => 1

/-- The sort comparator of `sorted` in `components/DataTable.tsx`: when both
cells coerce to non-NaN numbers they are compared numerically (difference),
otherwise by `String(av).localeCompare(String(bv))`, modelled by the
lexicographic string order; `sortAsc` flips the direction. -/
def sortCmp (sortAsc : Bool) (av bv : JsVal) : ℚ :=
  match jsToNumber av, jsToNumber bv with
  | some na, some nb => if sortAsc then na - nb else nb - na
  | _, _ =>
    if sortAsc then ordSign (compare (jsToString av) (jsToString bv))
    else ordSign (compare (jsToString bv) (jsToString av))

/-- An HTTP response as observed by `getJson` in `lib/api.ts`. -/
structure HttpResp where
  status : Nat
  statusText : String
  body : String
deriving DecidableEq

/-- `res.ok`: success exactly for 2xx statuses. -/
def respOk (r : HttpResp) : Bool := decide (200 ≤ r.status ∧ r.status < 300)

/-- The data client's failure modes: a non-success status with its
diagnostics, or an undecodable body. -/
inductive ApiError where
  | transport (status : Nat) (statusText : String) (excerpt : String)
  | decodeFail (url : String) (excerpt : String)
deriving DecidableEq

/-- JavaScript `text.slice(0, n)`: the first `n` characters. -/
def sliceN (s : String) (n : Nat) : String := ⟨s.data.take n⟩

/-- The first `getJson` of `lib/api.ts`: read the body as text; on `!res.ok`
fail with the status, status text and `text.slice(0, 300)`; otherwise decode
(`parse` models `JSON.parse` plus the cast), failing with the URL and the
same 300-character snippet when decoding fails. -/
def getJson1 {T : Type} (url : String) (resp : HttpResp)
    (parse : String → Option T) : Except ApiError T :=
  if respOk resp = false then
    .error (.transport resp.status resp.statusText (sliceN resp.body 300))
  else
    match parse resp.body with
    | some v => .ok v
    | none => .error (.decodeFail url (sliceN resp.body 300))

/-- The second `getJson` variant of `lib/api.ts` (the older related
document): on `!res.ok` it fails with the WHOLE body text, not a
300-character slice; on success it decodes with `res.json()`, whose
uncaught failure is modelled as a decode error carrying the body. -/
def getJson2 {T : Type} (url : String) (resp : HttpResp)
    (parse : String → Option T) : Except ApiError T :=
  if respOk resp = false then
    .error (.transport resp.status resp.statusText resp.body)
  else
    match parse resp.body with
    | some v => .ok v
    | none => .error (.decodeFail url resp.body)

/-- The wrap condition of claim C4 stated in the spec's words: the string
form contains a comma, a double quote, or a newline, or has leading or
trailing whitespace. -/
def specWrap (s : String) : Prop :=
  (∃ c ∈ s.data, c = ',' ∨ c = '"' ∨ c = '\n')
    ∨ s.data.head?.any jsWs = true
    ∨ s.data.getLast?.any jsWs = true

instance (s : String) : Decidable (specWrap s) := by
  unfold specWrap; infer_instance

/-- A 301-character response body, one character longer than the
300-character excerpt the spec promises. -/
def bigBody : String := ⟨List.replicate 301 'a'⟩

end IdxScreener

namespace IdxScreener

/-! Helper lemmas. -/

theorem headWs_eq (l : List Char) : headWs l = l.head?.any jsWs := by
  cases l <;> rfl

theorem needsQuote_iff (s : String) : needsQuote s = true ↔ specWrap s := by
  unfold needsQuote specWrap
  rw [headWs_eq, headWs_eq, List.head?_reverse]
  simp only [Bool.or_eq_true, List.any_eq_true, decide_eq_true_eq]
  constructor
  · rintro (⟨c, hc, h⟩ | h)
    · exact Or.inl ⟨c, hc, by tauto⟩
    · exact Or.inr h
  · rintro (⟨c, hc, h⟩ | h)
    · exact Or.inl ⟨c, hc, by tauto⟩
    · exact Or.inr h

theorem dupQuotes_of_noQuote {l : List Char} (h : ∀ c ∈ l, c ≠ '"') :
    dupQuotes l = l := by
  induction l with
  | nil => rfl
  | cons c cs ih =>
    have hc : c ≠ '"' := h c (List.mem_cons_self c cs)
    simp only [dupQuotes, if_neg hc]
    rw [ih (fun d hd => h d (List.mem_cons_of_mem c hd))]

theorem strEta (s : String) : (⟨s.data⟩ : String) = s := rfl

theorem jsTrim_nil : jsTrim "" = "" := rfl

/-! Claim theorems. -/

/-- Claim C1, counterexample: the claim says an operator threshold greater
than 1 (e.g. 1.5) resolves to the configured default 0.35, but the value the
code sends is `Math.min(1.5, 1) = 1`. -/
theorem sentThreshold_refutes_default_above_one :
    sentThreshold (some (3 / 2)) = 1 ∧ (1 : ℚ) ≠ 0.35 := by
  constructor
  · have h32 : (0 : ℚ) < 3 / 2 := by norm_num
    rw [sentThreshold, if_pos h32, min_eq_right (by norm_num)]
  · norm_num

/-- Claim C1 (amended): the value sent with the signals request is clamped
to (0,1]: a threshold that is 0, negative, or NaN resolves to the configured
default 0.35; a threshold greater than 1 is clamped to 1 (only the boot-time
default seeded from the backend is replaced by 0.35 when outside (0,1]);
a threshold inside (0,1] passes through unchanged. -/
theorem sentThreshold_clamp (q : ℚ) :
    sentThreshold none = 0.35
    ∧ (q ≤ 0 → sentThreshold (some q) = 0.35)
    ∧ (1 < q → sentThreshold (some q) = 1)
    ∧ (0 < q → q ≤ 1 → sentThreshold (some q) = q)
    ∧ (0 < sentThreshold (some q) ∧ sentThreshold (some q) ≤ 1)
    ∧ (¬ (0 < q ∧ q ≤ 1) → bootThreshold (some q) = 0.35) := by
  refine ⟨rfl, ?_, ?_, ?_, ?_, ?_⟩
  · intro h
    rw [sentThreshold, if_neg (not_lt.mpr h)]
  · intro h
    rw [sentThreshold, if_pos (lt_trans zero_lt_one h), min_eq_right (le_of_lt h)]
  · intro h1 h2
    rw [sentThreshold, if_pos h1, min_eq_left h2]
  · by_cases h : 0 < q
    · rw [sentThreshold, if_pos h]
      exact ⟨lt_min h zero_lt_one, min_le_right q 1⟩
    · rw [sentThreshold, if_neg h]
      norm_num
  · intro h
    rw [bootThreshold, if_neg h]

/-- Claim C1, witness of the amended theorem at concrete thresholds. -/
theorem sentThreshold_clamp_witness :
    sentThreshold none = 0.35 ∧ sentThreshold (some 2) = 1
      ∧ sentThreshold (some 1) = 1 :=
  ⟨(sentThreshold_clamp 2).1, (sentThreshold_clamp 2).2.2.1 one_lt_two,
    (sentThreshold_clamp 1).2.2.2.1 zero_lt_one le_rfl⟩

/-- Claim C2: in `applyFilters`, a blank `dateFrom` (resp. `dateTo`)
defaults to the other bound — the outcome is the same as if both bounds held
the other's value — and a fully blank pair short-circuits to `none`: rows
are set to `[]` and no backend request is issued. -/
theorem applyDates_spec (d : String) (hd : d ≠ "") :
    applyDates "" d = applyDates d d
    ∧ applyDates d "" = applyDates d d
    ∧ applyDates "" d = (if jsTrim d = "" then none else some (jsTrim d, jsTrim d))
    ∧ applyDates "" "" = none := by
  refine ⟨?_, ?_, ?_, ?_⟩ <;>
    simp [applyDates, jsOr, hd, jsTrim_nil]

/-- Claim C2, witness at a concrete date. -/
theorem applyDates_spec_witness :
    applyDates "" "2024-01-02" = applyDates "2024-01-02" "2024-01-02"
    ∧ applyDates "2024-01-02" "" = applyDates "2024-01-02" "2024-01-02"
    ∧ applyDates "" "" = none :=
  ⟨(applyDates_spec "2024-01-02" (by decide)).1,
    (applyDates_spec "2024-01-02" (by decide)).2.1,
    (applyDates_spec "2024-01-02" (by decide)).2.2.2⟩

/-- Claim C3: with the `"Semua Broker"` sentinel the broker predicate keeps
every row; with a specific (nonempty) broker name a row is kept iff its
`top_buyer` equals that broker, so a row with no top buyer is never kept. -/
theorem brokerFilter_spec (broker : String) (rows : List SignalRow)
    (h1 : broker ≠ "Semua Broker") (h2 : broker ≠ "") :
    brokerFilter "Semua Broker" rows = rows
    ∧ brokerFilter broker rows
        = rows.filter (fun r => decide (r.top_buyer = some broker))
    ∧ (∀ r, r ∈ brokerFilter broker rows ↔ r ∈ rows ∧ r.top_buyer = some broker)
    ∧ (∀ r ∈ rows, r.top_buyer = none → r ∉ brokerFilter broker rows) := by
  have hfil : brokerFilter broker rows
      = rows.filter (fun r => decide (r.top_buyer = some broker)) := by
    rw [brokerFilter, if_pos h1]
    apply List.filter_congr
    intro r _
    cases hr : r.top_buyer with
    | none =>
      simp only [Option.getD_none]
      rw [decide_eq_decide]
      constructor
      · intro h; exact absurd h.symm h2
      · intro h; cases h
    | some s =>
      simp only [Option.getD_some]
      rw [decide_eq_decide]
      simp
  refine ⟨by rw [brokerFilter]; simp, hfil, ?_, ?_⟩
  · intro r
    rw [hfil, List.mem_filter]
    simp
  · intro r _ hnone hmem
    rw [hfil, List.mem_filter] at hmem
    rw [hnone] at hmem
    simp at hmem

/-- Claim C3, witness: the sentinel keeps both rows; broker `"MG"` keeps
exactly the row whose top buyer is `"MG"` and drops the row with no top
buyer. -/
theorem brokerFilter_spec_witness :
    brokerFilter "Semua Broker"
        [⟨"2024-01-02", "BBCA", "BELI", 9000, some "MG"⟩,
          ⟨"2024-01-03", "BBRI", "JUAL KUAT", 4500, none⟩]
      = [⟨"2024-01-02", "BBCA", "BELI", 9000, some "MG"⟩,
          ⟨"2024-01-03", "BBRI", "JUAL KUAT", 4500, none⟩]
    ∧ ((⟨"2024-01-02", "BBCA", "BELI", 9000, some "MG"⟩ : SignalRow)
        ∈ brokerFilter "MG"
            [⟨"2024-01-02", "BBCA", "BELI", 9000, some "MG"⟩,
              ⟨"2024-01-03", "BBRI", "JUAL KUAT", 4500, none⟩])
    ∧ ((⟨"2024-01-03", "BBRI", "JUAL KUAT", 4500, none⟩ : SignalRow)
        ∉ brokerFilter "MG"
            [⟨"2024-01-02", "BBCA", "BELI", 9000, some "MG"⟩,
              ⟨"2024-01-03", "BBRI", "JUAL KUAT", 4500, none⟩]) :=
  ⟨(brokerFilter_spec "MG" _ (by decide) (by decide)).1,
    ((brokerFilter_spec "MG" _ (by decide) (by decide)).2.2.1 _).mpr
      ⟨by simp, rfl⟩,
    (brokerFilter_spec "MG" _ (by decide) (by decide)).2.2.2 _ (by simp) rfl⟩

/-- Claim C8: a blank (after trimming) exact-symbol criterion keeps every
row; a non-blank criterion keeps a row iff the row's symbol equals the
trimmed criterion case-insensitively (upper-cased forms equal). -/
theorem symbolFilter_spec (symbolExact : String) (rows : List SignalRow) :
    (jsTrim symbolExact = "" → symbolFilter symbolExact rows = rows)
    ∧ (jsTrim symbolExact ≠ "" →
        symbolFilter symbolExact rows
          = rows.filter
              (fun r => decide (upperStr r.saham = upperStr (jsTrim symbolExact))))
    ∧ (jsTrim symbolExact ≠ "" → ∀ r,
        r ∈ symbolFilter symbolExact rows
          ↔ r ∈ rows ∧ upperStr r.saham = upperStr (jsTrim symbolExact)) := by
  refine ⟨?_, ?_, ?_⟩
  · intro h
    rw [symbolFilter, if_neg (by simp [h])]
  · intro h
    rw [symbolFilter, if_pos h]
  · intro h r
    rw [symbolFilter, if_pos h, List.mem_filter]
    simp

/-- Claim C8, witness: lowercase criterion `"bbca"` matches the row with
symbol `"BBCA"` and a blank criterion keeps all rows. -/
theorem symbolFilter_spec_witness :
    ((⟨"2024-01-02", "BBCA", "BELI", 9000, none⟩ : SignalRow)
        ∈ symbolFilter "bbca" [⟨"2024-01-02", "BBCA", "BELI", 9000, none⟩])
    ∧ symbolFilter "  " [⟨"2024-01-02", "BBCA", "BELI", 9000, none⟩]
        = [⟨"2024-01-02", "BBCA", "BELI", 9000, none⟩] :=
  ⟨((symbolFilter_spec "bbca" _).2.2 (by decide) _).mpr ⟨by simp, by decide⟩,
    (symbolFilter_spec "  " _).1 (by decide)⟩

/-- Claim C9 (amended): on a non-success status both client variants fail
with a transport error carrying the status code and never return a value;
the body excerpt is the first 300 characters in the JSON-diagnosing client
(`getJson1`) but the ENTIRE body in the older variant (`getJson2`). -/
theorem getJson_transport {T : Type} (url : String) (resp : HttpResp)
    (parse : String → Option T) (h : respOk resp = false) :
    getJson1 url resp parse
      = .error (.transport resp.status resp.statusText (sliceN resp.body 300))
    ∧ getJson2 url resp parse
        = .error (.transport resp.status resp.statusText resp.body)
    ∧ (∀ v : T, getJson1 url resp parse ≠ .ok v)
    ∧ (∀ v : T, getJson2 url resp parse ≠ .ok v) := by
  refine ⟨?_, ?_, ?_, ?_⟩ <;> simp [getJson1, getJson2, h]

/-- Claim C9, witness at a concrete 404 response. -/
theorem getJson_transport_witness :
    respOk ⟨404, "Not Found", "nope"⟩ = false
    ∧ getJson1 "/health" ⟨404, "Not Found", "nope"⟩ (fun _ => (none : Option Unit))
        = .error (.transport 404 "Not Found" (sliceN "nope" 300))
    ∧ getJson2 "/health" ⟨404, "Not Found", "nope"⟩ (fun _ => (none : Option Unit))
        = .error (.transport 404 "Not Found" "nope") :=
  ⟨by decide,
    (getJson_transport "/health" ⟨404, "Not Found", "nope"⟩ _ (by decide)).1,
    (getJson_transport "/health" ⟨404, "Not Found", "nope"⟩ _ (by decide)).2.1⟩

set_option maxRecDepth 8000 in
/-- Claim C9, counterexample: for a 301-character body the older client
variant's transport error carries the whole body, which is not the first 300
characters the claim promises. -/
theorem getJson2_full_body_counterexample :
    getJson2 "/signals" ⟨500, "Internal Server Error", bigBody⟩
        (fun _ => (none : Option Unit))
      = .error (.transport 500 "Internal Server Error" bigBody)
    ∧ bigBody ≠ sliceN bigBody 300 := by
  constructor
  · rfl
  · decide

/-- Claim C10: in the table renderer's comparator, a `null` or empty-string
cell coerces to the number 0, so against any cell that parses as a number
the pair is compared numerically (difference of the two numbers, direction
per `sortAsc`) with the `null`/empty cell ranked as 0 — no lexicographic
fallback. -/
theorem sortCmp_null_empty_numeric (v w : JsVal)
    (hv : v = .vNull ∨ v = .vStr "") (q : ℚ) (hw : jsToNumber w = some q) :
    jsToNumber v = some 0
    ∧ sortCmp true v w = 0 - q
    ∧ sortCmp false v w = q - 0
    ∧ sortCmp true w v = q - 0
    ∧ sortCmp false w v = 0 - q := by
  have hv0 : jsToNumber v = some 0 := by
    rcases hv with h | h <;> subst h <;> rfl
  refine ⟨hv0, ?_, ?_, ?_, ?_⟩ <;> simp [sortCmp, hv0, hw]

theorem leAsc_trans : ∀ a b c : SignalRow, leAsc a b → leAsc b c → leAsc a c := by
  intro a b c h1 h2
  simp only [leAsc, decide_eq_true_eq] at *
  exact le_trans h1 h2

theorem leAsc_total : ∀ a b : SignalRow, leAsc a b || leAsc b a := by
  intro a b
  simp only [leAsc, Bool.or_eq_true, decide_eq_true_eq]
  exact le_total _ _

theorem leDesc_trans : ∀ a b c : SignalRow, leDesc a b → leDesc b c → leDesc a c := by
  intro a b c h1 h2
  simp only [leDesc, decide_eq_true_eq] at *
  exact le_trans h2 h1

theorem leDesc_total : ∀ a b : SignalRow, leDesc a b || leDesc b a := by
  intro a b
  simp only [leDesc, Bool.or_eq_true, decide_eq_true_eq]
  exact le_total _ _

/-- Claim C6: for every input, the engine's date sort is a permutation of
the input, sorted lexicographically by the date string ascending or
descending per the direction, and stable (any date-ordered pair — ties
included — keeps its relative order); when the dates are pairwise distinct
the descending sort is exactly the reverse of the ascending sort. -/
theorem sortRows_spec (rows : List SignalRow) :
    (sortRows "asc" rows).Perm rows
    ∧ (sortRows "desc" rows).Perm rows
    ∧ (sortRows "asc" rows).Pairwise (fun a b => a.tanggal ≤ b.tanggal)
    ∧ (sortRows "desc" rows).Pairwise (fun a b => b.tanggal ≤ a.tanggal)
    ∧ (∀ a b, List.Sublist [a, b] rows → a.tanggal ≤ b.tanggal →
        List.Sublist [a, b] (sortRows "asc" rows))
    ∧ (∀ a b, List.Sublist [a, b] rows → b.tanggal ≤ a.tanggal →
        List.Sublist [a, b] (sortRows "desc" rows))
    ∧ ((rows.map SignalRow.tanggal).Nodup →
        sortRows "desc" rows = (sortRows "asc" rows).reverse) := by
  have hasc : sortRows "asc" rows = rows.mergeSort leAsc := by
    rw [sortRows, if_pos rfl]
  have hdesc : sortRows "desc" rows = rows.mergeSort leDesc := by
    rw [sortRows, if_neg (by decide)]
  have pA : (rows.mergeSort leAsc).Perm rows := List.mergeSort_perm rows leAsc
  have pD : (rows.mergeSort leDesc).Perm rows := List.mergeSort_perm rows leDesc
  have sA : (rows.mergeSort leAsc).Pairwise (fun a b => a.tanggal ≤ b.tanggal) :=
    (List.sorted_mergeSort leAsc_trans leAsc_total rows).imp
      (fun h => by simpa [leAsc] using h)
  have sD : (rows.mergeSort leDesc).Pairwise (fun a b => b.tanggal ≤ a.tanggal) :=
    (List.sorted_mergeSort leDesc_trans leDesc_total rows).imp
      (fun h => by simpa [leDesc] using h)
  refine ⟨?_, ?_, ?_, ?_, ?_, ?_, ?_⟩
  · rw [hasc]; exact pA
  · rw [hdesc]; exact pD
  · rw [hasc]; exact sA
  · rw [hdesc]; exact sD
  · intro a b hsub hle
    rw [hasc]
    exact List.pair_sublist_mergeSort leAsc_trans leAsc_total
      (decide_eq_true hle) hsub
  · intro a b hsub hle
    rw [hdesc]
    exact List.pair_sublist_mergeSort leDesc_trans leDesc_total
      (decide_eq_true hle) hsub
  · intro hd
    have ndA : ((rows.mergeSort leAsc).map SignalRow.tanggal).Nodup :=
      ((pA.map SignalRow.tanggal).nodup_iff).mpr hd
    have neA : (rows.mergeSort leAsc).Pairwise
        (fun a b => a.tanggal ≠ b.tanggal) := List.pairwise_map.mp ndA
    have strictA : (rows.mergeSort leAsc).Pairwise dateLt :=
      (sA.and neA).imp (fun h => lt_of_le_of_ne h.1 h.2)
    have revSorted : ((rows.mergeSort leDesc).reverse).Pairwise
        (fun a b => a.tanggal ≤ b.tanggal) := List.pairwise_reverse.mpr sD
    have permRev : ((rows.mergeSort leDesc).reverse).Perm rows :=
      (List.reverse_perm _).trans pD
    have ndRev : (((rows.mergeSort leDesc).reverse).map SignalRow.tanggal).Nodup :=
      ((permRev.map SignalRow.tanggal).nodup_iff).mpr hd
    have neRev : ((rows.mergeSort leDesc).reverse).Pairwise
        (fun a b => a.tanggal ≠ b.tanggal) := List.pairwise_map.mp ndRev
    have strictRev : ((rows.mergeSort leDesc).reverse).Pairwise dateLt :=
      (revSorted.and neRev).imp (fun h => lt_of_le_of_ne h.1 h.2)
    have heq : rows.mergeSort leAsc = (rows.mergeSort leDesc).reverse :=
      List.eq_of_perm_of_sorted (pA.trans permRev.symm) strictA strictRev
    rw [hasc, hdesc]
    rw [show rows.mergeSort leDesc = ((rows.mergeSort leDesc).reverse).reverse
      from (List.reverse_reverse _).symm, heq]

/-- Claim C6, witness: on an input with two rows sharing the date
"2024-01-02" the ascending sort keeps their relative order (stability at a
genuine tie); and on three rows with pairwise distinct dates descending is
exactly the reverse of ascending, both being permutations of the input. -/
theorem sortRows_spec_witness :
    List.Sublist
        [⟨"2024-01-02", "AAAA", "BELI", 1, none⟩,
          ⟨"2024-01-02", "BBBB", "JUAL KUAT", 2, none⟩]
        (sortRows "asc"
          [⟨"2024-01-03", "CCCC", "BELI", 3, none⟩,
            ⟨"2024-01-02", "AAAA", "BELI", 1, none⟩,
            ⟨"2024-01-02", "BBBB", "JUAL KUAT", 2, none⟩])
    ∧ sortRows "desc"
        [⟨"2024-01-01", "AAAA", "BELI", 1, none⟩,
          ⟨"2024-01-03", "BBBB", "BELI", 2, none⟩,
          ⟨"2024-01-02", "CCCC", "BELI", 3, none⟩]
      = (sortRows "asc"
          [⟨"2024-01-01", "AAAA", "BELI", 1, none⟩,
            ⟨"2024-01-03", "BBBB", "BELI", 2, none⟩,
            ⟨"2024-01-02", "CCCC", "BELI", 3, none⟩]).reverse
    ∧ List.Perm
        (sortRows "asc"
          [⟨"2024-01-01", "AAAA", "BELI", 1, none⟩,
            ⟨"2024-01-03", "BBBB", "BELI", 2, none⟩,
            ⟨"2024-01-02", "CCCC", "BELI", 3, none⟩])
        [⟨"2024-01-01", "AAAA", "BELI", 1, none⟩,
          ⟨"2024-01-03", "BBBB", "BELI", 2, none⟩,
          ⟨"2024-01-02", "CCCC", "BELI", 3, none⟩] :=
  ⟨(sortRows_spec _).2.2.2.2.1 _ _ (by decide) (le_of_eq rfl),
    (sortRows_spec _).2.2.2.2.2.2 (by decide),
    (sortRows_spec _).1⟩

/-- Claim C4: a `null` or absent value serializes to an empty cell; any
other value's string form is wrapped in double quotes with internal double
quotes doubled iff it contains a comma, a double quote, or a newline, or has
leading/trailing whitespace, and is emitted unchanged otherwise. -/
theorem escapeCell_spec :
    escapeCell .vNull = "" ∧ escapeCell .vUndef = ""
    ∧ ∀ s : String,
        (specWrap s →
          escapeCell (.vStr s) = "\"" ++ (⟨dupQuotes s.data⟩ : String) ++ "\"")
        ∧ (¬ specWrap s → escapeCell (.vStr s) = s) := by
  refine ⟨rfl, rfl, ?_⟩
  intro s
  constructor
  · intro h
    have hq : needsQuote s = true := (needsQuote_iff s).mpr h
    show (if needsQuote (jsToString (.vStr s)) then _ else _) = _
    rw [show jsToString (.vStr s) = s from rfl, if_pos hq]
  · intro h
    have hq : needsQuote s ≠ true := fun hb => h ((needsQuote_iff s).mp hb)
    have hnq : ∀ c ∈ s.data, c ≠ '"' := by
      intro c hc hcq
      exact h (Or.inl ⟨c, hc, Or.inr (Or.inl hcq)⟩)
    show (if needsQuote (jsToString (.vStr s)) then _ else _) = _
    rw [show jsToString (.vStr s) = s from rfl, if_neg hq,
      dupQuotes_of_noQuote hnq, strEta]

/-- Claim C4, witness: a comma-carrying cell is quoted, a plain cell is
emitted unchanged, and `null`/`undefined` cells are empty. -/
theorem escapeCell_spec_witness :
    specWrap "a,b"
    ∧ escapeCell (.vStr "a,b") = "\"" ++ (⟨dupQuotes "a,b".data⟩ : String) ++ "\""
    ∧ ¬ specWrap "abc"
    ∧ escapeCell (.vStr "abc") = "abc"
    ∧ escapeCell .vNull = "" :=
  ⟨by decide, (escapeCell_spec.2.2 "a,b").1 (by decide), by decide,
    (escapeCell_spec.2.2 "abc").2 (by decide), escapeCell_spec.1⟩

/-- Claim C7: in the table renderer's search, a blank query keeps the input
unmodified; a non-blank query keeps a row iff some column value's string
form case-insensitively contains the query (both sides lower-cased), so a
query matching no column value of any row yields the empty sequence. -/
theorem searchRows_spec (rows : List (List (String × JsVal))) (query : String) :
    (jsTrim query = "" → searchRows rows query = rows)
    ∧ (jsTrim query ≠ "" →
        searchRows rows query
          = rows.filter (rowMatches (colsOf rows) (lowerStr query)))
    ∧ (jsTrim query ≠ "" → ∀ r,
        r ∈ searchRows rows query
          ↔ r ∈ rows ∧ rowMatches (colsOf rows) (lowerStr query) r = true)
    ∧ (jsTrim query ≠ "" →
        (∀ r ∈ rows, rowMatches (colsOf rows) (lowerStr query) r = false) →
        searchRows rows query = []) := by
  have hfil : jsTrim query ≠ "" →
      searchRows rows query
        = rows.filter (rowMatches (colsOf rows) (lowerStr query)) := by
    intro h
    by_cases hr : rows = []
    · subst hr; simp [searchRows]
    · rw [searchRows, if_neg hr, if_neg h]
  refine ⟨?_, hfil, ?_, ?_⟩
  · intro h
    by_cases hr : rows = []
    · subst hr; simp [searchRows]
    · rw [searchRows, if_neg hr, if_pos h]
  · intro h r
    rw [hfil h, List.mem_filter]
  · intro h hall
    rw [hfil h]
    exact List.filter_eq_nil_iff.mpr (fun a ha => by simp [hall a ha])

/-- Claim C7, witness: a blank query is a no-op, query `"bb"` retains
exactly the `"BBCA"` row, and query `"zz"` (matching nothing) yields the
empty sequence. -/
theorem searchRows_spec_witness :
    searchRows [[("saham", .vStr "BBCA")], [("saham", .vStr "TLKM")]] "  "
      = [[("saham", .vStr "BBCA")], [("saham", .vStr "TLKM")]]
    ∧ ([("saham", JsVal.vStr "BBCA")]
        ∈ searchRows [[("saham", .vStr "BBCA")], [("saham", .vStr "TLKM")]] "bb")
    ∧ ([("saham", JsVal.vStr "TLKM")]
        ∉ searchRows [[("saham", .vStr "BBCA")], [("saham", .vStr "TLKM")]] "bb")
    ∧ searchRows [[("saham", .vStr "BBCA")], [("saham", .vStr "TLKM")]] "zz"
        = [] :=
  ⟨(searchRows_spec [[("saham", .vStr "BBCA")], [("saham", .vStr "TLKM")]] "  ").1
      (by decide),
    ((searchRows_spec [[("saham", .vStr "BBCA")], [("saham", .vStr "TLKM")]] "bb").2.2.1
        (by decide) _).mpr ⟨by simp, by decide⟩,
    fun hmem => by
      have := ((searchRows_spec [[("saham", .vStr "BBCA")], [("saham", .vStr "TLKM")]] "bb").2.2.1
        (by decide) _).mp hmem
      exact absurd this.2 (by decide),
    (searchRows_spec [[("saham", .vStr "BBCA")], [("saham", .vStr "TLKM")]] "zz").2.2.2
      (by decide) (by decide)⟩

/-! CSV round-trip lemmas (claim C5). -/

theorem strDataAppend (s t : String) : (s ++ t).data = s.data ++ t.data := rfl

theorem joinSep_single (sep x : String) : joinSep sep [x] = x := rfl

theorem joinSep_cons2 (sep x y : String) (z : List String) :
    joinSep sep (x :: y :: z) = x ++ sep ++ joinSep sep (y :: z) := rfl

theorem splitA_nil (inQ : Bool) (cell : List Char) (line : List String)
    (acc : List (List String)) :
    splitCSVAux [] inQ cell line acc = acc ++ [line ++ [⟨cell⟩]] := rfl

theorem splitA_qq (rest cell : List Char) (line : List String)
    (acc : List (List String)) :
    splitCSVAux ('"' :: '"' :: rest) true cell line acc
      = splitCSVAux rest true (cell ++ ['"']) line acc := rfl

theorem splitA_close (rest cell : List Char) (line : List String)
    (acc : List (List String)) (h : headQuote rest = false) :
    splitCSVAux ('"' :: rest) true cell line acc
      = splitCSVAux rest false cell line acc := by
  cases rest with
  | nil => rfl
  | cons c l =>
    by_cases hc : c = '"'
    · subst hc; simp [headQuote] at h
    · simp [splitCSVAux, hc]

theorem splitA_openQ (rest cell : List Char) (line : List String)
    (acc : List (List String)) :
    splitCSVAux ('"' :: rest) false cell line acc
      = splitCSVAux rest true cell line acc := by
  cases rest with
  | nil => rfl
  | cons c l =>
    by_cases hc : c = '"'
    · subst hc; rfl
    · simp [splitCSVAux, hc]

theorem splitA_comma (rest cell : List Char) (line : List String)
    (acc : List (List String)) :
    splitCSVAux (',' :: rest) false cell line acc
      = splitCSVAux rest false [] (line ++ [⟨cell⟩]) acc := rfl

theorem splitA_nl (rest cell : List Char) (line : List String)
    (acc : List (List String)) :
    splitCSVAux ('\n' :: rest) false cell line acc
      = splitCSVAux rest false [] [] (acc ++ [line ++ [⟨cell⟩]]) := rfl

theorem splitA_inqChar (c : Char) (rest cell : List Char) (line : List String)
    (acc : List (List String)) (h : c ≠ '"') :
    splitCSVAux (c :: rest) true cell line acc
      = splitCSVAux rest true (cell ++ [c]) line acc := by
  simp [splitCSVAux, h]

theorem splitA_plainChar (c : Char) (rest cell : List Char) (line : List String)
    (acc : List (List String)) (h1 : c ≠ '"') (h2 : c ≠ ',') (h3 : c ≠ '\n') :
    splitCSVAux (c :: rest) false cell line acc
      = splitCSVAux rest false (cell ++ [c]) line acc := by
  simp [splitCSVAux, h1, h2, h3]

theorem splitA_quoted (s : List Char) :
    ∀ (rest cell : List Char) (line : List String) (acc : List (List String)),
    headQuote rest = false →
    splitCSVAux (dupQuotes s ++ '"' :: rest) true cell line acc
      = splitCSVAux rest false (cell ++ s) line acc := by
  induction s with
  | nil =>
    intro rest cell line acc h
    simp only [dupQuotes, List.nil_append, List.append_nil]
    exact splitA_close rest cell line acc h
  | cons c cs ih =>
    intro rest cell line acc h
    by_cases hc : c = '"'
    · subst hc
      have hd : dupQuotes ('"' :: cs) = '"' :: '"' :: dupQuotes cs := by
        simp [dupQuotes]
      rw [hd, List.cons_append, List.cons_append, splitA_qq,
        ih rest _ line acc h]
      have hl : (cell ++ ['"']) ++ cs = cell ++ '"' :: cs := by simp
      rw [hl]
    · have hd : dupQuotes (c :: cs) = c :: dupQuotes cs := by
        simp [dupQuotes, hc]
      rw [hd, List.cons_append, splitA_inqChar c _ cell line acc hc,
        ih rest _ line acc h]
      have hl : (cell ++ [c]) ++ cs = cell ++ c :: cs := by simp
      rw [hl]

theorem splitA_plain (s : List Char) :
    ∀ (rest cell : List Char) (line : List String) (acc : List (List String)),
    (∀ c ∈ s, c ≠ '"' ∧ c ≠ ',' ∧ c ≠ '\n') →
    splitCSVAux (s ++ rest) false cell line acc
      = splitCSVAux rest false (cell ++ s) line acc := by
  induction s with
  | nil => intro rest cell line acc _; simp
  | cons c cs ih =>
    intro rest cell line acc h
    obtain ⟨h1, h2, h3⟩ := h c (List.mem_cons_self c cs)
    rw [List.cons_append, splitA_plainChar c _ cell line acc h1 h2 h3,
      ih rest _ line acc (fun d hd => h d (List.mem_cons_of_mem c hd))]
    have hl : (cell ++ [c]) ++ cs = cell ++ c :: cs := by simp
    rw [hl]

theorem escapeCell_eq (v : JsVal) :
    escapeCell v
      = if needsQuote (cellStr v) then
          "\"" ++ (⟨dupQuotes (cellStr v).data⟩ : String) ++ "\""
        else (⟨dupQuotes (cellStr v).data⟩ : String) := by
  cases v <;> rfl

theorem needsQuote_false_chars {s : String} (h : needsQuote s = false) :
    ∀ c ∈ s.data, c ≠ '"' ∧ c ≠ ',' ∧ c ≠ '\n' := by
  intro c hc
  have hany : s.data.any (fun c => c = '"' || c = ',' || c = '\n') = false := by
    rw [needsQuote, Bool.or_eq_false_iff] at h
    exact h.1
  have hc2 := List.any_eq_false.mp hany c hc
  simp only [Bool.or_eq_true, decide_eq_true_eq, not_or] at hc2
  exact ⟨hc2.1.1, hc2.1.2, hc2.2⟩

theorem escapeCell_vStr_plain {s : String} (h : needsQuote s = false) :
    escapeCell (.vStr s) = s := by
  rw [escapeCell_eq]
  rw [show cellStr (.vStr s) = s from rfl, if_neg (by simp [h]),
    dupQuotes_of_noQuote (fun c hc => (needsQuote_false_chars h c hc).1), strEta]

theorem splitA_field (v : JsVal) (rest cell : List Char) (line : List String)
    (acc : List (List String)) (h : headQuote rest = false) :
    splitCSVAux ((escapeCell v).data ++ rest) false cell line acc
      = splitCSVAux rest false (cell ++ (cellStr v).data) line acc := by
  rw [escapeCell_eq v]
  by_cases hqv : needsQuote (cellStr v)
  · rw [if_pos hqv]
    have hdata : ("\"" ++ (⟨dupQuotes (cellStr v).data⟩ : String) ++ "\"").data
        = '"' :: (dupQuotes (cellStr v).data ++ ['"']) := rfl
    rw [hdata]
    have hshape : ('"' :: (dupQuotes (cellStr v).data ++ ['"'])) ++ rest
        = '"' :: (dupQuotes (cellStr v).data ++ '"' :: rest) := by simp
    rw [hshape, splitA_openQ _ cell line acc,
      splitA_quoted (cellStr v).data rest cell line acc h]
  · rw [if_neg hqv]
    have hqv' : needsQuote (cellStr v) = false := by
      revert hqv; cases needsQuote (cellStr v) <;> simp
    have hdata : ((⟨dupQuotes (cellStr v).data⟩ : String)).data
        = (cellStr v).data :=
      dupQuotes_of_noQuote (fun c hc => (needsQuote_false_chars hqv' c hc).1)
    rw [hdata]
    exact splitA_plain (cellStr v).data rest cell line acc
      (needsQuote_false_chars hqv')

theorem splitA_lastLine (cs : List JsVal) :
    ∀ (a : JsVal) (line : List String) (acc : List (List String)),
    splitCSVAux (joinSep "," ((a :: cs).map escapeCell)).data false [] line acc
      = acc ++ [line ++ (a :: cs).map cellStr] := by
  induction cs with
  | nil =>
    intro a line acc
    simp only [List.map_cons, List.map_nil, joinSep_single]
    rw [show (escapeCell a).data = (escapeCell a).data ++ [] by simp,
      splitA_field a [] [] line acc rfl, splitA_nil]
    simp [strEta]
  | cons b cs ih =>
    intro a line acc
    simp only [List.map_cons] at ih ⊢
    rw [joinSep_cons2]
    have h2 : (escapeCell a ++ "," ++ joinSep "," (escapeCell b :: cs.map escapeCell)).data
        = (escapeCell a).data
            ++ ',' :: (joinSep "," (escapeCell b :: cs.map escapeCell)).data := by
      simp [strDataAppend]
    rw [h2, splitA_field a
        (',' :: (joinSep "," (escapeCell b :: cs.map escapeCell)).data)
        [] line acc rfl,
      splitA_comma, ih b]
    simp [strEta, List.append_assoc]

theorem splitA_midLine (cs : List JsVal) :
    ∀ (a : JsVal) (rest : List Char) (line : List String)
      (acc : List (List String)),
    splitCSVAux ((joinSep "," ((a :: cs).map escapeCell)).data ++ '\n' :: rest)
        false [] line acc
      = splitCSVAux rest false [] [] (acc ++ [line ++ (a :: cs).map cellStr]) := by
  induction cs with
  | nil =>
    intro a rest line acc
    simp only [List.map_cons, List.map_nil, joinSep_single]
    rw [splitA_field a ('\n' :: rest) [] line acc rfl, splitA_nl]
    simp [strEta]
  | cons b cs ih =>
    intro a rest line acc
    simp only [List.map_cons] at ih ⊢
    rw [joinSep_cons2]
    have h2 : (escapeCell a ++ ","
          ++ joinSep "," (escapeCell b :: cs.map escapeCell)).data ++ '\n' :: rest
        = (escapeCell a).data
            ++ ',' :: ((joinSep "," (escapeCell b :: cs.map escapeCell)).data
              ++ '\n' :: rest) := by
      simp [strDataAppend]
    rw [h2, splitA_field a
        (',' :: ((joinSep "," (escapeCell b :: cs.map escapeCell)).data
          ++ '\n' :: rest))
        [] line acc rfl,
      splitA_comma, ih b]
    simp [strEta, List.append_assoc]

theorem splitA_lines (lss : List (List JsVal)) :
    ∀ (a0 : JsVal) (cs0 : List JsVal) (acc : List (List String)),
    (∀ ls ∈ lss, ls ≠ []) →
    splitCSVAux (joinSep "\n"
        (((a0 :: cs0) :: lss).map (fun ls => joinSep "," (ls.map escapeCell)))).data
        false [] [] acc
      = acc ++ ((a0 :: cs0) :: lss).map (fun ls => ls.map cellStr) := by
  induction lss with
  | nil =>
    intro a0 cs0 acc _
    simp only [List.map_cons, List.map_nil, joinSep_single]
    have hll := splitA_lastLine cs0 a0 [] acc
    simp only [List.map_cons] at hll
    rw [hll]
    simp
  | cons l ls ih =>
    intro a0 cs0 acc h
    obtain ⟨b, bs, rfl⟩ : ∃ b bs, l = b :: bs := by
      cases l with
      | nil => exact absurd rfl (h [] (List.mem_cons_self _ _))
      | cons b bs => exact ⟨b, bs, rfl⟩
    simp only [List.map_cons] at ih ⊢
    rw [joinSep_cons2]
    have h2 : (joinSep "," (escapeCell a0 :: cs0.map escapeCell) ++ "\n"
          ++ joinSep "\n" (joinSep "," (escapeCell b :: bs.map escapeCell)
              :: ls.map (fun ls => joinSep "," (ls.map escapeCell)))).data
        = (joinSep "," (escapeCell a0 :: cs0.map escapeCell)).data
            ++ '\n' :: (joinSep "\n" (joinSep "," (escapeCell b :: bs.map escapeCell)
              :: ls.map (fun ls => joinSep "," (ls.map escapeCell)))).data := by
      simp [strDataAppend]
    rw [h2]
    have hmid := splitA_midLine cs0 a0
      (joinSep "\n" (joinSep "," (escapeCell b :: bs.map escapeCell)
        :: ls.map (fun ls => joinSep "," (ls.map escapeCell)))).data [] acc
    simp only [List.map_cons] at hmid
    rw [hmid]
    have hih := ih b bs (acc ++ [[] ++ (a0 :: cs0).map cellStr])
      (fun x hx => h x (List.mem_cons_of_mem _ hx))
    simp only [List.map_cons] at hih
    rw [hih]
    simp [List.append_assoc]

theorem cellStr_vStr (s : String) : cellStr (.vStr s) = s := rfl

theorem mapVStr_cellStr (l : List String) :
    (l.map JsVal.vStr).map cellStr = l := by
  rw [List.map_map]
  have : ∀ n ∈ l, (cellStr ∘ JsVal.vStr) n = n := fun n _ => rfl
  rw [List.map_congr_left this, List.map_id']

/-- The round-trip core for claim C5: re-splitting the serialized CSV
recovers the header (the column names) and each record's cell strings, for
any cell contents, provided the column names themselves never need quoting
(the header line is emitted unescaped). -/
theorem splitCSV_toCSV_aux (rows : List (List (String × JsVal)))
    (cols : List String) (c0 : String) (crest : List String)
    (hcv : columnsOf rows cols = c0 :: crest)
    (hq : ∀ name ∈ columnsOf rows cols, needsQuote name = false) :
    splitCSV (toCSV rows cols)
      = (columnsOf rows cols)
          :: rows.map (fun r =>
              (columnsOf rows cols).map (fun c => cellStr (getVal r c))) := by
  rw [hcv] at hq
  have htoCSV : toCSV rows cols
      = joinSep "\n" (joinSep "," (columnsOf rows cols)
          :: rows.map (fun r => joinSep ","
              ((columnsOf rows cols).map (fun c => escapeCell (getVal r c))))) := rfl
  rw [splitCSV, htoCSV, hcv]
  have hhead : (((JsVal.vStr c0) :: crest.map JsVal.vStr).map escapeCell)
      = c0 :: crest := by
    simp only [List.map_cons, List.map_map]
    rw [escapeCell_vStr_plain (hq c0 (by simp))]
    have : ∀ n ∈ crest, (escapeCell ∘ JsVal.vStr) n = n := by
      intro n hn
      exact escapeCell_vStr_plain (hq n (by simp [hn]))
    rw [List.map_congr_left this, List.map_id']
  have hheadJ : joinSep "," (c0 :: crest)
      = joinSep "," (((JsVal.vStr c0) :: crest.map JsVal.vStr).map escapeCell) :=
    (congrArg (joinSep ",") hhead).symm
  have hlines : rows.map (fun r => joinSep ","
        ((c0 :: crest).map (fun c => escapeCell (getVal r c))))
      = (rows.map (fun r => (c0 :: crest).map (getVal r))).map
          (fun ls => joinSep "," (ls.map escapeCell)) := by
    rw [List.map_map]
    apply List.map_congr_left
    intro r _
    show joinSep "," (List.map (fun c => escapeCell (getVal r c)) (c0 :: crest))
      = joinSep "," (List.map escapeCell (List.map (getVal r) (c0 :: crest)))
    rw [List.map_map]
    rfl
  have hfold : joinSep "," ((JsVal.vStr c0 :: crest.map JsVal.vStr).map escapeCell)
        :: (rows.map (fun r => (c0 :: crest).map (getVal r))).map
            (fun ls => joinSep "," (ls.map escapeCell))
      = ((JsVal.vStr c0 :: crest.map JsVal.vStr)
          :: rows.map (fun r => (c0 :: crest).map (getVal r))).map
            (fun ls => joinSep "," (ls.map escapeCell)) := rfl
  rw [hheadJ, hlines, hfold]
  have hne2 : ∀ ls ∈ rows.map (fun r => (c0 :: crest).map (getVal r)), ls ≠ [] := by
    intro ls hls
    obtain ⟨r, _, rfl⟩ := List.mem_map.mp hls
    simp
  rw [splitA_lines (rows.map (fun r => (c0 :: crest).map (getVal r)))
    (JsVal.vStr c0) (crest.map JsVal.vStr) [] hne2]
  simp only [List.nil_append, List.map_cons, List.map_map]
  congr 1
  · rw [show cellStr (JsVal.vStr c0) = c0 from rfl]
    congr 1
    have : ∀ n ∈ crest, (cellStr ∘ JsVal.vStr) n = n := fun n _ => rfl
    rw [List.map_congr_left this, List.map_id']
  · apply List.map_congr_left
    intro r _
    simp [List.map_map, Function.comp]

/-- Claim C5: `toCSV` uses the caller-supplied column order when non-empty,
else the key order of the first record, else no columns; it emits the header
plus one line per record joined by newlines; and re-splitting the output on
unescaped commas/newlines recovers N+1 lines holding the original cell
values — also for cells containing commas, quotes, or embedded newlines —
whenever the column set is non-empty and the column names themselves never
need quoting. -/
theorem toCSV_roundTrip (rows : List (List (String × JsVal)))
    (cols : List String)
    (hq : ∀ name ∈ columnsOf rows cols, needsQuote name = false)
    (hne : columnsOf rows cols ≠ []) :
    (cols ≠ [] → columnsOf rows cols = cols)
    ∧ (∀ r rs, cols = [] → rows = r :: rs → columnsOf rows cols = keysOf r)
    ∧ (cols = [] → rows = [] → columnsOf rows cols = [])
    ∧ toCSV rows cols
        = joinSep "\n" (joinSep "," (columnsOf rows cols)
            :: rows.map (fun r => joinSep ","
                ((columnsOf rows cols).map (fun c => escapeCell (getVal r c)))))
    ∧ splitCSV (toCSV rows cols)
        = (columnsOf rows cols)
            :: rows.map (fun r =>
                (columnsOf rows cols).map (fun c => cellStr (getVal r c)))
    ∧ (splitCSV (toCSV rows cols)).length = rows.length + 1 := by
  obtain ⟨c0, crest, hcv⟩ : ∃ c0 crest, columnsOf rows cols = c0 :: crest := by
    cases hcol : columnsOf rows cols with
    | nil => exact absurd hcol hne
    | cons c0 crest => exact ⟨c0, crest, rfl⟩
  have hrt := splitCSV_toCSV_aux rows cols c0 crest hcv hq
  refine ⟨?_, ?_, ?_, rfl, hrt, ?_⟩
  · intro h
    simp [columnsOf, h]
  · intro r rs h1 h2
    subst h1; subst h2
    rfl
  · intro h1 h2
    subst h1; subst h2
    rfl
  · rw [hrt]
    simp

/-- Claim C5, witness: two records whose cells hold a comma, a double quote,
an embedded newline, padded whitespace, a number and a null; the serialized
text re-splits into 3 lines carrying the original cell strings. -/
theorem toCSV_roundTrip_witness :
    columnsOf
        [[("a", JsVal.vStr "x,y"), ("b", JsVal.vStr "p\"q"), ("c", JsVal.vNum 5)],
          [("a", JsVal.vStr "l1\nl2"), ("b", JsVal.vStr " pad "), ("c", JsVal.vNull)]]
        [] = ["a", "b", "c"]
    ∧ splitCSV (toCSV
        [[("a", JsVal.vStr "x,y"), ("b", JsVal.vStr "p\"q"), ("c", JsVal.vNum 5)],
          [("a", JsVal.vStr "l1\nl2"), ("b", JsVal.vStr " pad "), ("c", JsVal.vNull)]]
        [])
      = [["a", "b", "c"], ["x,y", "p\"q", "5"], ["l1\nl2", " pad ", ""]]
    ∧ (splitCSV (toCSV
        [[("a", JsVal.vStr "x,y"), ("b", JsVal.vStr "p\"q"), ("c", JsVal.vNum 5)],
          [("a", JsVal.vStr "l1\nl2"), ("b", JsVal.vStr " pad "), ("c", JsVal.vNull)]]
        [])).length = 2 + 1 := by
  have h := toCSV_roundTrip
    [[("a", JsVal.vStr "x,y"), ("b", JsVal.vStr "p\"q"), ("c", JsVal.vNum 5)],
      [("a", JsVal.vStr "l1\nl2"), ("b", JsVal.vStr " pad "), ("c", JsVal.vNull)]]
    [] (by decide) (by decide)
  refine ⟨by decide, ?_, ?_⟩
  · rw [h.2.2.2.2.1]
    decide
  · exact h.2.2.2.2.2

/-- Claim C10, witness: `null` and `""` against the number 2. -/
theorem sortCmp_null_empty_numeric_witness :
    sortCmp true .vNull (.vNum 2) = 0 - 2
    ∧ sortCmp true (.vStr "") (.vNum 2) = 0 - 2
    ∧ jsToNumber (.vStr "") = some 0 :=
  ⟨(sortCmp_null_empty_numeric .vNull (.vNum 2) (Or.inl rfl) 2 rfl).2.1,
    (sortCmp_null_empty_numeric (.vStr "") (.vNum 2) (Or.inr rfl) 2 rfl).2.1,
    (sortCmp_null_empty_numeric (.vStr "") (.vNum 2) (Or.inr rfl) 2 rfl).1⟩

end IdxScreener
